import Mathlib

/-!
Verification of the pseudo-label heatmap generator and regression-disparity
loss family of `src/uda/model/regda_7.py` (Domain-Adaptative-Hand-Pose-Estimation).

Modelling conventions.
* float32 tensors are modelled as real-valued tensors; a tensor of rank 4 is a
  structure carrying its shape `(B, K, H, W)` together with a total data
  function on natural-number indices (entries outside the shape are unused).
* numpy / torch operations that can raise (fancy indexing out of bounds,
  reshape with a size mismatch, broadcasting with incompatible shapes,
  assertion failures) are modelled with `Option`: `none` is the raising run.
* `tensor / scalar` is modelled as real division except where a claim is
  about the IEEE behaviour at a zero denominator; that one step is modelled
  separately with an explicit NaN/Inf-carrying value type (`FloatVal`).
-/

noncomputable section

/-- Rank-4 tensor: shape `(B, K, H, W)` plus a total data function
`data b k h w` (row-major pixel convention: `h` is the row, `w` the column). -/
structure Tensor4 where
  B : ℕ
  K : ℕ
  H : ℕ
  W : ℕ
  data : ℕ → ℕ → ℕ → ℕ → ℝ

/-- Rank-3 tensor `(B, H, W)`, used for the summed presence maps
(`torch.sum(ground_truth, dim=1)`). -/
structure Tensor3 where
  B : ℕ
  H : ℕ
  W : ℕ
  data : ℕ → ℕ → ℕ → ℝ

/-- Shape of a rank-4 tensor as a tuple. -/
def Tensor4.shape (x : Tensor4) : ℕ × ℕ × ℕ × ℕ := (x.B, x.K, x.H, x.W)

/-- numpy `.clip(max=1., min=0.)` on one scalar entry. -/
def clip01 (x : ℝ) : ℝ := min (max x 0) 1

/-- One entry of the heatmap template bank built in
`PseudoLabelGenerator.__init__` (src/uda/model/regda_7.py lines 41-68).
`heatmapEntry sigma t H W mux muy iy ix` is `heatmaps[mux][muy][iy][ix]` for a
bank built with window half-width `t` (`tmp_size`; `t = sigma * 3` in the base
class, `2 * sigma` in `PseudoLabelGenerator03`, and `1.5 * sigma` — an integer
for the even default `sigma = 2` — in `PseudoLabelGenerator01`).
The source pastes the local Gaussian patch
`g[j][i] = exp(-((i - x0)^2 + (j - y0)^2) / (2 sigma^2))`, `x0 = y0 = size // 2`
with `size = 2 t + 1`, onto the slice `[img_y0:img_y1, img_x0:img_x1]` of a
zero image, taking the patch from `[g_y0:g_y1, g_x0:g_x1]`; the slice
arithmetic sends pixel `(iy, ix)` to the patch cell `(iy - uly, ix - ulx)`,
which is the formula used here. -/
def heatmapEntry (sigma t H W mux muy iy ix : ℕ) : ℝ :=
  if max 0 ((mux : ℤ) - t) ≤ (ix : ℤ) ∧ (ix : ℤ) < min ((mux : ℤ) + t + 1) (W : ℤ) ∧
     max 0 ((muy : ℤ) - t) ≤ (iy : ℤ) ∧ (iy : ℤ) < min ((muy : ℤ) + t + 1) (H : ℤ) then
    Real.exp (-((((ix : ℤ) - ((mux : ℤ) - t) - (2 * (t : ℤ) + 1) / 2 : ℤ) : ℝ) ^ 2 +
        (((iy : ℤ) - ((muy : ℤ) - t) - (2 * (t : ℤ) + 1) / 2 : ℤ) : ℝ) ^ 2) /
      (2 * (sigma : ℝ) ^ 2))
  else 0

/-- The pasted-window entry in closed form: inside the truncation window the
entry is the unnormalised Gaussian of the offset from the peak, outside it is
zero.  Valid for on-grid pixels. -/
theorem heatmapEntry_closed (sigma t H W mux muy iy ix : ℕ)
    (hx : ix < W) (hy : iy < H) :
    heatmapEntry sigma t H W mux muy iy ix =
      if (((ix : ℤ) - mux).natAbs ≤ t ∧ ((iy : ℤ) - muy).natAbs ≤ t) then
        Real.exp (-((((ix : ℤ) - mux : ℤ) : ℝ) ^ 2 + (((iy : ℤ) - muy : ℤ) : ℝ) ^ 2) /
          (2 * (sigma : ℝ) ^ 2))
      else 0 := by
  unfold heatmapEntry
  have hx0 : (2 * (t : ℤ) + 1) / 2 = (t : ℤ) := by omega
  by_cases hwin : ((ix : ℤ) - mux).natAbs ≤ t ∧ ((iy : ℤ) - muy).natAbs ≤ t
  · have hcond : max 0 ((mux : ℤ) - t) ≤ (ix : ℤ) ∧
        (ix : ℤ) < min ((mux : ℤ) + t + 1) (W : ℤ) ∧
        max 0 ((muy : ℤ) - t) ≤ (iy : ℤ) ∧ (iy : ℤ) < min ((muy : ℤ) + t + 1) (H : ℤ) := by
      obtain ⟨h1, h2⟩ := hwin
      constructor
      · omega
      constructor
      · omega
      constructor
      · omega
      · omega
    rw [if_pos hcond, if_pos hwin]
    have e1 : (ix : ℤ) - ((mux : ℤ) - t) - (2 * (t : ℤ) + 1) / 2 = (ix : ℤ) - mux := by omega
    have e2 : (iy : ℤ) - ((muy : ℤ) - t) - (2 * (t : ℤ) + 1) / 2 = (iy : ℤ) - muy := by omega
    rw [e1, e2]
  · have hcond : ¬ (max 0 ((mux : ℤ) - t) ≤ (ix : ℤ) ∧
        (ix : ℤ) < min ((mux : ℤ) + t + 1) (W : ℤ) ∧
        max 0 ((muy : ℤ) - t) ≤ (iy : ℤ) ∧ (iy : ℤ) < min ((muy : ℤ) + t + 1) (H : ℤ)) := by
      intro hc
      apply hwin
      obtain ⟨h1, h2, h3, h4⟩ := hc
      constructor
      · omega
      · omega
    rw [if_neg hcond, if_neg hwin]

/-- Every bank entry is non-negative. -/
theorem heatmapEntry_nonneg (sigma t H W mux muy iy ix : ℕ) :
    0 ≤ heatmapEntry sigma t H W mux muy iy ix := by
  unfold heatmapEntry
  split
  · exact le_of_lt (Real.exp_pos _)
  · exact le_refl 0

/-- Every bank entry is at most one. -/
theorem heatmapEntry_le_one (sigma t H W mux muy iy ix : ℕ) :
    heatmapEntry sigma t H W mux muy iy ix ≤ 1 := by
  unfold heatmapEntry
  split
  · apply Real.exp_le_one_iff.mpr
    apply div_nonpos_of_nonpos_of_nonneg
    · apply neg_nonpos.mpr
      positivity
    · positivity
  · norm_num

/-- The entry at the peak pixel itself is exactly one. -/
theorem heatmapEntry_center (sigma t H W mux muy : ℕ) (hx : mux < W) (hy : muy < H) :
    heatmapEntry sigma t H W mux muy muy mux = 1 := by
  rw [heatmapEntry_closed sigma t H W mux muy muy mux hx hy]
  rw [if_pos (by simp)]
  simp

/-- Outside the truncation window (along either axis) the entry is exactly zero. -/
theorem heatmapEntry_outside (sigma t H W mux muy iy ix : ℕ)
    (hx : ix < W) (hy : iy < H)
    (hout : t < ((ix : ℤ) - mux).natAbs ∨ t < ((iy : ℤ) - muy).natAbs) :
    heatmapEntry sigma t H W mux muy iy ix = 0 := by
  rw [heatmapEntry_closed sigma t H W mux muy iy ix hx hy]
  rw [if_neg (by omega)]

/-- Inside the truncation window an entry at a pixel other than the peak is
strictly below one (the Gaussian is strict monotone in the squared offset). -/
theorem heatmapEntry_lt_one_of_ne (sigma t H W mux muy iy ix : ℕ) (hsig : 0 < sigma)
    (hx : ix < W) (hy : iy < H) (hne : ¬(ix = mux ∧ iy = muy)) :
    heatmapEntry sigma t H W mux muy iy ix < 1 := by
  rw [heatmapEntry_closed sigma t H W mux muy iy ix hx hy]
  split
  · have hsR : (0 : ℝ) < (((ix : ℤ) - mux : ℤ) : ℝ) ^ 2 + (((iy : ℤ) - muy : ℤ) : ℝ) ^ 2 := by
      rcases Decidable.not_and_iff_or_not.mp hne with h | h
      · have hdx : (((ix : ℤ) - mux : ℤ) : ℝ) ≠ 0 := by
          simp only [ne_eq, Int.cast_eq_zero, sub_eq_zero]
          exact_mod_cast h
        have h1 : (0 : ℝ) < (((ix : ℤ) - mux : ℤ) : ℝ) ^ 2 :=
          lt_of_le_of_ne (sq_nonneg _) (Ne.symm (pow_ne_zero 2 hdx))
        have h2 : (0 : ℝ) ≤ (((iy : ℤ) - muy : ℤ) : ℝ) ^ 2 := sq_nonneg _
        linarith
      · have hdy : (((iy : ℤ) - muy : ℤ) : ℝ) ≠ 0 := by
          simp only [ne_eq, Int.cast_eq_zero, sub_eq_zero]
          exact_mod_cast h
        have h1 : (0 : ℝ) < (((iy : ℤ) - muy : ℤ) : ℝ) ^ 2 :=
          lt_of_le_of_ne (sq_nonneg _) (Ne.symm (pow_ne_zero 2 hdy))
        have h2 : (0 : ℝ) ≤ (((ix : ℤ) - mux : ℤ) : ℝ) ^ 2 := sq_nonneg _
        linarith
    have hcR : (0 : ℝ) < 2 * (sigma : ℝ) ^ 2 := by
      have : (0 : ℝ) < (sigma : ℝ) := by exact_mod_cast hsig
      positivity
    calc Real.exp (-((((ix : ℤ) - mux : ℤ) : ℝ) ^ 2 + (((iy : ℤ) - muy : ℤ) : ℝ) ^ 2) /
          (2 * (sigma : ℝ) ^ 2))
        < Real.exp 0 := by
          apply Real.exp_lt_exp.mpr
          rw [neg_div]
          exact neg_lt_zero.mpr (div_pos hsR hcR)
      _ = 1 := Real.exp_zero
  · norm_num

/-- C1: for every valid configuration the bank entry for peak `(mux, muy)`
is exactly `1.0` at pixel `(muy, mux)` — even when the window is clipped at
the grid boundary — and exactly `0.0` at every on-grid pixel whose offset from
the peak exceeds the truncation half-width `tmp_size = sigma * 3` of the base
generator along either axis. -/
theorem claim_C1_template_peak_and_truncation
    (K H W sigma : ℕ) (hK : 0 < K) (hH : 0 < H) (hW : 0 < W) (hsig : 0 < sigma)
    (mux muy : ℕ) (hx : mux < W) (hy : muy < H) :
    heatmapEntry sigma (sigma * 3) H W mux muy muy mux = 1 ∧
    ∀ iy ix : ℕ, ix < W → iy < H →
      (sigma * 3 < ((ix : ℤ) - mux).natAbs ∨ sigma * 3 < ((iy : ℤ) - muy).natAbs) →
      heatmapEntry sigma (sigma * 3) H W mux muy iy ix = 0 := by
  refine ⟨heatmapEntry_center sigma (sigma * 3) H W mux muy hx hy, ?_⟩
  intro iy ix hxW hyH hout
  exact heatmapEntry_outside sigma (sigma * 3) H W mux muy iy ix hxW hyH hout

/-- Witness for C1 at the default configuration `K = 21`, `H = W = 64`,
`sigma = 2` with the peak clipped into the top-left corner. -/
theorem claim_C1_witness :
    heatmapEntry 2 (2 * 3) 64 64 0 0 0 0 = 1 ∧ heatmapEntry 2 (2 * 3) 64 64 0 0 0 7 = 0 := by
  obtain ⟨h1, h2⟩ := claim_C1_template_peak_and_truncation 21 64 64 2
    (by decide) (by decide) (by decide) (by decide) 0 0 (by decide) (by decide)
  exact ⟨h1, h2 0 7 (by decide) (by decide) (by decide)⟩

/-- C7: bank invariants — every entry is non-negative, the peak pixel carries
exactly `1.0`, entries decrease monotonically with the Euclidean distance from
the peak inside the truncation window, and every entry whose squared distance
from the peak exceeds `2 t^2` (radius `t * sqrt 2`) is zero. -/
theorem claim_C7_bank_invariants
    (sigma t H W mux muy : ℕ) (hsig : 0 < sigma) (hx : mux < W) (hy : muy < H) :
    (∀ iy ix : ℕ, 0 ≤ heatmapEntry sigma t H W mux muy iy ix) ∧
    heatmapEntry sigma t H W mux muy muy mux = 1 ∧
    (∀ iy1 ix1 iy2 ix2 : ℕ, ix1 < W → iy1 < H → ix2 < W → iy2 < H →
      ((ix1 : ℤ) - mux).natAbs ≤ t → ((iy1 : ℤ) - muy).natAbs ≤ t →
      ((ix2 : ℤ) - mux).natAbs ≤ t → ((iy2 : ℤ) - muy).natAbs ≤ t →
      ((ix1 : ℤ) - mux) ^ 2 + ((iy1 : ℤ) - muy) ^ 2 ≤
        ((ix2 : ℤ) - mux) ^ 2 + ((iy2 : ℤ) - muy) ^ 2 →
      heatmapEntry sigma t H W mux muy iy2 ix2 ≤ heatmapEntry sigma t H W mux muy iy1 ix1) ∧
    (∀ iy ix : ℕ, ix < W → iy < H →
      2 * (t : ℤ) ^ 2 < ((ix : ℤ) - mux) ^ 2 + ((iy : ℤ) - muy) ^ 2 →
      heatmapEntry sigma t H W mux muy iy ix = 0) := by
  refine ⟨fun iy ix => heatmapEntry_nonneg sigma t H W mux muy iy ix,
    heatmapEntry_center sigma t H W mux muy hx hy, ?_, ?_⟩
  · intro iy1 ix1 iy2 ix2 hx1 hy1 hx2 hy2 ha1 hb1 ha2 hb2 hdist
    rw [heatmapEntry_closed sigma t H W mux muy iy1 ix1 hx1 hy1,
        heatmapEntry_closed sigma t H W mux muy iy2 ix2 hx2 hy2,
        if_pos ⟨ha2, hb2⟩, if_pos ⟨ha1, hb1⟩]
    apply Real.exp_le_exp.mpr
    have hcR : (0 : ℝ) < 2 * (sigma : ℝ) ^ 2 := by
      have : (0 : ℝ) < (sigma : ℝ) := by exact_mod_cast hsig
      positivity
    rw [neg_div, neg_div, neg_le_neg_iff]
    rw [div_le_div_iff_of_pos_right hcR]
    exact_mod_cast hdist
  · intro iy ix hxW hyH hfar
    rw [heatmapEntry_closed sigma t H W mux muy iy ix hxW hyH]
    rw [if_neg]
    intro hwin
    obtain ⟨h1, h2⟩ := hwin
    have e1 : ((ix : ℤ) - mux) ^ 2 ≤ (t : ℤ) ^ 2 := by
      have hl : -(t : ℤ) ≤ (ix : ℤ) - mux := by omega
      have hr : (ix : ℤ) - mux ≤ (t : ℤ) := by omega
      exact sq_le_sq' hl hr
    have e2 : ((iy : ℤ) - muy) ^ 2 ≤ (t : ℤ) ^ 2 := by
      have hl : -(t : ℤ) ≤ (iy : ℤ) - muy := by omega
      have hr : (iy : ℤ) - muy ≤ (t : ℤ) := by omega
      exact sq_le_sq' hl hr
    linarith

/-- Witness for C7 at `sigma = 2`, `t = 6`, `H = W = 64`, peak `(3, 3)`:
non-negativity at the origin, peak value one, monotone step from the peak to
its right neighbour, and vanishing at the distant pixel `(3, 20)`. -/
theorem claim_C7_witness :
    (0 ≤ heatmapEntry 2 6 64 64 3 3 0 0) ∧
    heatmapEntry 2 6 64 64 3 3 3 3 = 1 ∧
    heatmapEntry 2 6 64 64 3 3 3 4 ≤ heatmapEntry 2 6 64 64 3 3 3 3 ∧
    heatmapEntry 2 6 64 64 3 3 3 20 = 0 := by
  obtain ⟨h1, h2, h3, h4⟩ := claim_C7_bank_invariants 2 6 64 64 3 3
    (by decide) (by decide) (by decide)
  refine ⟨h1 0 0, h2, ?_, ?_⟩
  · exact h3 3 3 3 4 (by decide) (by decide) (by decide) (by decide)
      (by decide) (by decide) (by decide) (by decide) (by decide)
  · exact h4 3 20 (by decide) (by decide) (by decide)

/-- Modelled from the spec: the peak decoder `get_max_preds` imported from
`utils.keypoint_detection` is not among the sources.  Spec section 4.2: the
decoder returns the integer argmax of each heatmap with ties broken by the
first occurrence in row-major scan order (lowest linear index).
`argmaxUpTo g n` is the first linear index attaining the maximum of `g` on
`[0, n)` (and `0` when `n = 0`). -/
def argmaxUpTo (g : ℕ → ℝ) : ℕ → ℕ
  | 0 => 0
  | n + 1 => if g (argmaxUpTo g n) < g n then n else argmaxUpTo g n

/-- Modelled from the spec: for one `(H, W)` map read in row-major order,
`get_max_preds` returns the `(x, y)` coordinates of the argmax, with
`x = l % W` and `y = l / W` for the winning linear index `l`. -/
def getMaxPred (H W : ℕ) (f : ℕ → ℕ → ℝ) : ℕ × ℕ :=
  (argmaxUpTo (fun l => f (l / W) (l % W)) (H * W) % W,
   argmaxUpTo (fun l => f (l / W) (l % W)) (H * W) / W)

/-- The argmax of a nonempty prefix lies inside it. -/
theorem argmaxUpTo_lt (g : ℕ → ℝ) (n : ℕ) (hn : 0 < n) : argmaxUpTo g n < n := by
  induction n with
  | zero => exact absurd hn (lt_irrefl 0)
  | succ m ih =>
    simp only [argmaxUpTo]
    split
    · omega
    · rcases Nat.eq_zero_or_pos m with h0 | hpos
      · subst h0
        simp [argmaxUpTo]
      · exact Nat.lt_succ_of_lt (ih hpos)

/-- If one index strictly dominates all others, the scan returns it. -/
theorem argmaxUpTo_unique (g : ℕ → ℝ) (n l0 : ℕ) (hl : l0 < n)
    (hu : ∀ l : ℕ, l < n → l ≠ l0 → g l < g l0) : argmaxUpTo g n = l0 := by
  induction n with
  | zero => omega
  | succ m ih =>
    simp only [argmaxUpTo]
    by_cases hcase : l0 = m
    · rcases Nat.eq_zero_or_pos m with h0 | hpos
      · have hz : argmaxUpTo g m = 0 := by
          rw [h0]
          simp [argmaxUpTo]
        rw [hz, hcase, h0]
        simp
      · have hb : argmaxUpTo g m < m := argmaxUpTo_lt g m hpos
        have hlt : g (argmaxUpTo g m) < g l0 := hu _ (by omega) (by omega)
        rw [hcase] at hlt
        rw [if_pos hlt]
        exact hcase.symm
    · have heq : argmaxUpTo g m = l0 := by
        apply ih
        · omega
        · intro l hlm hne
          exact hu l (by omega) hne
      have hgm : g m < g l0 := hu m (by omega) (fun h => hcase h.symm)
      rw [heq, if_neg (not_lt.mpr (le_of_lt hgm))]

/-- On a constant map the scan keeps the initial index `0`. -/
theorem argmaxUpTo_const (c : ℝ) (n : ℕ) : argmaxUpTo (fun _ => c) n = 0 := by
  induction n with
  | zero => rfl
  | succ m ih => simp [argmaxUpTo, ih]

/-- Decoding a constant heatmap gives the first pixel `(0, 0)`. -/
theorem getMaxPred_const (H W : ℕ) (c : ℝ) : getMaxPred H W (fun _ _ => c) = (0, 0) := by
  unfold getMaxPred
  rw [show (fun l : ℕ => (fun _ _ : ℕ => c) (l / W) (l % W)) = (fun _ : ℕ => c) from rfl]
  rw [argmaxUpTo_const]
  simp

/-- C4: round trip of template lookup and argmax decoding — the decoder applied
to the bank entry for `(mux, muy)` (base generator, half-width `sigma * 3`)
returns exactly `(mux, muy)`. -/
theorem claim_C4_roundtrip_decode (sigma H W mux muy : ℕ) (hsig : 0 < sigma)
    (hx : mux < W) (hy : muy < H) :
    getMaxPred H W (fun iy ix => heatmapEntry sigma (sigma * 3) H W mux muy iy ix) =
      (mux, muy) := by
  have hW : 0 < W := by omega
  have hl0 : muy * W + mux < H * W := by
    have h1 : muy * W + mux < (muy + 1) * W := by
      have : (muy + 1) * W = muy * W + W := by ring
      omega
    have h2 : (muy + 1) * W ≤ H * W := Nat.mul_le_mul_right W hy
    omega
  have hdiv : (muy * W + mux) / W = muy := by
    rw [Nat.add_comm, Nat.add_mul_div_right mux muy hW, Nat.div_eq_of_lt hx]
    omega
  have hmod : (muy * W + mux) % W = mux := by
    rw [Nat.add_comm, Nat.add_mul_mod_self_right, Nat.mod_eq_of_lt hx]
  have hmax : argmaxUpTo
      (fun l => heatmapEntry sigma (sigma * 3) H W mux muy (l / W) (l % W)) (H * W) =
      muy * W + mux := by
    apply argmaxUpTo_unique _ _ _ hl0
    intro l hlHW hne
    have hlW : l % W < W := Nat.mod_lt _ hW
    have hlH : l / W < H := by
      rcases Nat.lt_or_ge (l / W) H with h | h
      · exact h
      · exfalso
        have : H * W ≤ (l / W) * W := Nat.mul_le_mul_right W h
        have hc : (l / W) * W ≤ l := Nat.div_mul_le_self l W
        omega
    have hcenter : heatmapEntry sigma (sigma * 3) H W mux muy
        ((muy * W + mux) / W) ((muy * W + mux) % W) = 1 := by
      rw [hdiv, hmod]
      exact heatmapEntry_center sigma (sigma * 3) H W mux muy hx hy
    have hnepix : ¬ (l % W = mux ∧ l / W = muy) := by
      intro hc
      apply hne
      obtain ⟨h1, h2⟩ := hc
      calc l = W * (l / W) + l % W := (Nat.div_add_mod l W).symm
        _ = W * muy + mux := by rw [h1, h2]
        _ = muy * W + mux := by ring
    have hlt : heatmapEntry sigma (sigma * 3) H W mux muy (l / W) (l % W) < 1 :=
      heatmapEntry_lt_one_of_ne sigma (sigma * 3) H W mux muy (l / W) (l % W)
        hsig hlW hlH hnepix
    rw [hcenter]
    exact hlt
  unfold getMaxPred
  rw [hmax, hdiv, hmod]

/-- Witness for C4 at the default configuration, peak `(5, 7)` on a 64 by 64
grid with `sigma = 2`. -/
theorem claim_C4_witness :
    getMaxPred 64 64 (fun iy ix => heatmapEntry 2 (2 * 3) 64 64 5 7 iy ix) = (5, 7) :=
  claim_C4_roundtrip_decode 2 64 64 5 7 (by decide) (by decide) (by decide)

/-- Clip keeps values non-negative. -/
theorem clip01_nonneg (x : ℝ) : 0 ≤ clip01 x :=
  le_min (le_max_right x 0) zero_le_one

/-- Clip keeps values at most one. -/
theorem clip01_le_one (x : ℝ) : clip01 x ≤ 1 :=
  min_le_right _ _

/-- Clip saturates at one. -/
theorem clip01_of_one_le (x : ℝ) (h : 1 ≤ x) : clip01 x = 1 := by
  unfold clip01
  rw [max_eq_left (le_trans zero_le_one h), min_eq_right h]

/-- Clip saturates at zero. -/
theorem clip01_of_nonpos (x : ℝ) (h : x ≤ 0) : clip01 x = 0 := by
  unfold clip01
  rw [max_eq_right h, min_eq_left zero_le_one]

/-- The suppression matrix `1. - np.eye(num_keypoints)` (line 69): zero on the
diagonal, one off it.  Entries are only ever read at indices below the number
of keypoints, so the size parameter is not carried. -/
def false_matrix (i j : ℕ) : ℝ := 1 - (if i = j then 1 else 0)

/-- Off-diagonal and diagonal entries of the suppression matrix are `0 ≤`. -/
theorem false_matrix_nonneg (i j : ℕ) : 0 ≤ false_matrix i j := by
  unfold false_matrix
  split
  · norm_num
  · norm_num

/-- Off-diagonal entries of the suppression matrix equal one. -/
theorem false_matrix_off_diag (i j : ℕ) (h : i ≠ j) : false_matrix i j = 1 := by
  unfold false_matrix
  rw [if_neg h]
  norm_num

/-- `PseudoLabelGenerator.forward` (lines 71-81).  The run raises — `none` —
when a decoded coordinate falls outside the bank (`heatmaps[preds[:,0],
preds[:,1]]`), when the reshape of the gathered `(B*K, height, width)` block
to `(B, K, H, W)` has the wrong element count, or when the flattened dot with
the `num_keypoints` by `num_keypoints` suppression matrix does not match `K`.
The reshape is modelled by flat re-indexing: output pixel `(h, w)` of block
`(b, k)` reads bank cell `(q / width, q % width)` for `q = h * W + w`. -/
def PseudoLabelGenerator.forward (num_keypoints height width sigma : ℕ) (y : Tensor4) :
    Option (Tensor4 × Tensor4) :=
  if (∀ b < y.B, ∀ k < y.K,
        (getMaxPred y.H y.W (y.data b k)).1 < width ∧
        (getMaxPred y.H y.W (y.data b k)).2 < height) ∧
      y.B * y.K * height * width = y.B * y.K * y.H * y.W ∧
      y.K = num_keypoints then
    let ground_truth : Tensor4 :=
      ⟨y.B, y.K, y.H, y.W, fun b k h w =>
        heatmapEntry sigma (sigma * 3) height width
          (getMaxPred y.H y.W (y.data b k)).1 (getMaxPred y.H y.W (y.data b k)).2
          ((h * y.W + w) / width) ((h * y.W + w) % width)⟩
    let ground_false : Tensor4 :=
      ⟨y.B, y.K, y.H, y.W, fun b k h w =>
        clip01 (Finset.sum (Finset.range y.K) fun i =>
          ground_truth.data b i h w * false_matrix i k)⟩
    some (ground_truth, ground_false)
  else none

/-- The complement ground-false construction
`(torch.ones_like(ground_truth) - ground_truth * 10).clip(max=1., min=0.)`
of `PseudoLabelGenerator01.forward` (lines 3036-3037) and
`RegressionDisparityx1.forward` (lines 3255-3256). -/
def complementGroundFalse (gt : Tensor4) : Tensor4 :=
  ⟨gt.B, gt.K, gt.H, gt.W, fun b k h w => clip01 (1 - gt.data b k h w * 10)⟩

/-- `PseudoLabelGenerator01.forward` (lines 3027-3039): decoded coordinates are
divided by 4 (integer floor), the gathered block is reshaped to the hardcoded
`(B, K, 16, 16)`, and the ground false is the complement construction.
The bank half-width is `1.5 * sigma`, modelled as `sigma * 3 / 2` (exact for
the even class default `sigma = 2`; odd `sigma` additionally hits CPython
float truncation that this integer model does not reproduce). -/
def PseudoLabelGenerator01.forward (num_keypoints height width sigma : ℕ) (y : Tensor4) :
    Option (Tensor4 × Tensor4) :=
  if (∀ b < y.B, ∀ k < y.K,
        (getMaxPred y.H y.W (y.data b k)).1 / 4 < width ∧
        (getMaxPred y.H y.W (y.data b k)).2 / 4 < height) ∧
      y.B * y.K * height * width = y.B * y.K * 16 * 16 then
    let ground_truth : Tensor4 :=
      ⟨y.B, y.K, 16, 16, fun b k h w =>
        heatmapEntry sigma (sigma * 3 / 2) height width
          ((getMaxPred y.H y.W (y.data b k)).1 / 4) ((getMaxPred y.H y.W (y.data b k)).2 / 4)
          ((h * 16 + w) / width) ((h * 16 + w) % width)⟩
    some (ground_truth, complementGroundFalse ground_truth)
  else none

/-- `RegressionDisparity.forward` (lines 129-138): assert the mode is `min` or
`max`, run the pseudo-label generator, and hand the adversarial prediction and
the selected target — ground truth for `min`, ground false for `max` — to the
external criterion together with the untouched optional weight. -/
def RegressionDisparity.forward (num_keypoints height width sigma : ℕ)
    (criterion : Tensor4 → Tensor4 → Option (ℕ → ℕ → ℝ) → ℝ)
    (y y_adv : Tensor4) (weight : Option (ℕ → ℕ → ℝ)) (mode : String) : Option ℝ :=
  if mode = "min" ∨ mode = "max" then
    (PseudoLabelGenerator.forward num_keypoints height width sigma y).map fun p =>
      if mode = "min" then criterion y_adv p.1 weight else criterion y_adv p.2 weight
  else none

/-- All-zero `(1, 1, 4, 4)` prediction batch used to refute C2. -/
def yCexC2 : Tensor4 := ⟨1, 1, 4, 4, fun _ _ _ _ => 0⟩

/-- Acceptance of the all-zero `(1, 1, 4, 4)` batch by `PseudoLabelGenerator01`
with the default `16 x 16` bank. -/
theorem yCexC2_accepted :
    (∀ b < yCexC2.B, ∀ k < yCexC2.K,
        (getMaxPred yCexC2.H yCexC2.W (yCexC2.data b k)).1 / 4 < 16 ∧
        (getMaxPred yCexC2.H yCexC2.W (yCexC2.data b k)).2 / 4 < 16) ∧
      yCexC2.B * yCexC2.K * 16 * 16 = yCexC2.B * yCexC2.K * 16 * 16 := by
  refine ⟨?_, rfl⟩
  intro b hb k hk
  have h : getMaxPred yCexC2.H yCexC2.W (yCexC2.data b k) = (0, 0) :=
    getMaxPred_const 4 4 0
  rw [h]
  exact ⟨by norm_num, by norm_num⟩

/-- C2 counterexample: `PseudoLabelGenerator01.forward` accepts the all-zero
`(1, 1, 4, 4)` batch (downscaled coordinates `0 < 16` index the bank, and the
gathered block reshapes to the hardcoded `(B, K, 16, 16)`), yet both returned
tensors have shape `(1, 1, 16, 16)`, not the input shape `(1, 1, 4, 4)`. -/
theorem claim_C2_counterexample :
    (PseudoLabelGenerator01.forward 21 16 16 2 yCexC2).map
        (fun p => (p.1.shape, p.2.shape)) =
      some ((1, 1, 16, 16), (1, 1, 16, 16)) ∧
    yCexC2.shape = (1, 1, 4, 4) ∧ (16 : ℕ) ≠ 4 := by
  refine ⟨?_, rfl, by norm_num⟩
  rw [PseudoLabelGenerator01.forward, if_pos yCexC2_accepted]
  rfl

/-- C2 (amended): the base generator returns tensors of the input shape, the
fixed-resolution variant `PseudoLabelGenerator01` returns tensors of the
hardcoded shape `(B, K, 16, 16)`; in both, every ground-truth and ground-false
entry lies in the closed interval `[0, 1]`. -/
theorem claim_C2_amended_shapes_and_range
    (nk hh ww sigma nk1 hh1 ww1 sigma1 : ℕ)
    (y y1 gt gf gt1 gf1 : Tensor4)
    (hrun : PseudoLabelGenerator.forward nk hh ww sigma y = some (gt, gf))
    (hrun1 : PseudoLabelGenerator01.forward nk1 hh1 ww1 sigma1 y1 = some (gt1, gf1)) :
    (gt.shape = y.shape ∧ gf.shape = y.shape ∧
      (∀ b k h w : ℕ, 0 ≤ gt.data b k h w ∧ gt.data b k h w ≤ 1) ∧
      (∀ b k h w : ℕ, 0 ≤ gf.data b k h w ∧ gf.data b k h w ≤ 1)) ∧
    (gt1.shape = (y1.B, y1.K, 16, 16) ∧ gf1.shape = (y1.B, y1.K, 16, 16) ∧
      (∀ b k h w : ℕ, 0 ≤ gt1.data b k h w ∧ gt1.data b k h w ≤ 1) ∧
      (∀ b k h w : ℕ, 0 ≤ gf1.data b k h w ∧ gf1.data b k h w ≤ 1)) := by
  constructor
  · rw [PseudoLabelGenerator.forward] at hrun
    split at hrun
    · rw [Option.some.injEq, Prod.mk.injEq] at hrun
      obtain ⟨hgt, hgf⟩ := hrun
      subst hgt
      subst hgf
      refine ⟨rfl, rfl, ?_, ?_⟩
      · intro b k h w
        exact ⟨heatmapEntry_nonneg _ _ _ _ _ _ _ _, heatmapEntry_le_one _ _ _ _ _ _ _ _⟩
      · intro b k h w
        exact ⟨clip01_nonneg _, clip01_le_one _⟩
    · exact absurd hrun (by simp)
  · rw [PseudoLabelGenerator01.forward] at hrun1
    split at hrun1
    · rw [Option.some.injEq, Prod.mk.injEq] at hrun1
      obtain ⟨hgt, hgf⟩ := hrun1
      subst hgt
      subst hgf
      refine ⟨rfl, rfl, ?_, ?_⟩
      · intro b k h w
        exact ⟨heatmapEntry_nonneg _ _ _ _ _ _ _ _, heatmapEntry_le_one _ _ _ _ _ _ _ _⟩
      · intro b k h w
        exact ⟨clip01_nonneg _, clip01_le_one _⟩
    · exact absurd hrun1 (by simp)

/-- All-zero `(1, 1, 1, 1)` batch fed to the base generator in the C2 witness. -/
def yBaseC2 : Tensor4 := ⟨1, 1, 1, 1, fun _ _ _ _ => 0⟩

/-- All-zero `(1, 1, 4, 4)` batch fed to `PseudoLabelGenerator01` in the C2
witness. -/
def y01C2 : Tensor4 := ⟨1, 1, 4, 4, fun _ _ _ _ => 0⟩

/-- Ground truth of the base-generator run of the C2 witness. -/
def gtBaseC2 : Tensor4 :=
  ⟨yBaseC2.B, yBaseC2.K, yBaseC2.H, yBaseC2.W, fun b k h w =>
    heatmapEntry 1 (1 * 3) 1 1
      (getMaxPred yBaseC2.H yBaseC2.W (yBaseC2.data b k)).1
      (getMaxPred yBaseC2.H yBaseC2.W (yBaseC2.data b k)).2
      ((h * yBaseC2.W + w) / 1) ((h * yBaseC2.W + w) % 1)⟩

/-- Ground false of the base-generator run of the C2 witness. -/
def gfBaseC2 : Tensor4 :=
  ⟨yBaseC2.B, yBaseC2.K, yBaseC2.H, yBaseC2.W, fun b k h w =>
    clip01 (Finset.sum (Finset.range yBaseC2.K) fun i =>
      gtBaseC2.data b i h w * false_matrix i k)⟩

/-- Ground truth of the `PseudoLabelGenerator01` run of the C2 witness. -/
def gt01C2 : Tensor4 :=
  ⟨y01C2.B, y01C2.K, 16, 16, fun b k h w =>
    heatmapEntry 2 (2 * 3 / 2) 16 16
      ((getMaxPred y01C2.H y01C2.W (y01C2.data b k)).1 / 4)
      ((getMaxPred y01C2.H y01C2.W (y01C2.data b k)).2 / 4)
      ((h * 16 + w) / 16) ((h * 16 + w) % 16)⟩

/-- The base generator accepts the all-zero `(1, 1, 1, 1)` batch. -/
theorem yBaseC2_run :
    PseudoLabelGenerator.forward 1 1 1 1 yBaseC2 = some (gtBaseC2, gfBaseC2) := by
  rw [PseudoLabelGenerator.forward, if_pos]
  · rfl
  · refine ⟨?_, rfl, rfl⟩
    intro b hb k hk
    have h : getMaxPred yBaseC2.H yBaseC2.W (yBaseC2.data b k) = (0, 0) :=
      getMaxPred_const 1 1 0
    rw [h]
    exact ⟨by norm_num, by norm_num⟩

/-- `PseudoLabelGenerator01` accepts the all-zero `(1, 1, 4, 4)` batch. -/
theorem y01C2_run :
    PseudoLabelGenerator01.forward 1 16 16 2 y01C2 =
      some (gt01C2, complementGroundFalse gt01C2) := by
  rw [PseudoLabelGenerator01.forward, if_pos]
  · rfl
  · refine ⟨?_, rfl⟩
    intro b hb k hk
    have h : getMaxPred y01C2.H y01C2.W (y01C2.data b k) = (0, 0) :=
      getMaxPred_const 4 4 0
    rw [h]
    exact ⟨by norm_num, by norm_num⟩

/-- Witness for C2 (amended) at two concrete accepted runs. -/
theorem claim_C2_witness :
    gtBaseC2.shape = yBaseC2.shape ∧ gt01C2.shape = (y01C2.B, y01C2.K, 16, 16) ∧
    0 ≤ (complementGroundFalse gt01C2).data 0 0 0 0 ∧
    (complementGroundFalse gt01C2).data 0 0 0 0 ≤ 1 := by
  obtain ⟨⟨h1, _, _, _⟩, ⟨h2, _, _, h4⟩⟩ :=
    claim_C2_amended_shapes_and_range 1 1 1 1 1 16 16 2
      yBaseC2 y01C2 gtBaseC2 gfBaseC2 gt01C2 (complementGroundFalse gt01C2)
      yBaseC2_run y01C2_run
  exact ⟨h1, h2, (h4 0 0 0 0).1, (h4 0 0 0 0).2⟩

/-- A clipped suppression sum saturates at one as soon as a keypoint with a
one-valued ground truth and a non-zero suppression-matrix entry contributes. -/
theorem crossSuppress_eq_one (Kn : ℕ) (g : ℕ → ℝ) (k k2 : ℕ)
    (hk : k < Kn) (hne : k ≠ k2) (hone : g k = 1) (hnn : ∀ i : ℕ, 0 ≤ g i) :
    clip01 (Finset.sum (Finset.range Kn) fun i => g i * false_matrix i k2) = 1 := by
  apply clip01_of_one_le
  calc (1 : ℝ) = g k * false_matrix k k2 := by
        rw [hone, false_matrix_off_diag k k2 hne]
        ring
    _ ≤ Finset.sum (Finset.range Kn) fun i => g i * false_matrix i k2 := by
        have h := Finset.single_le_sum
          (fun (i : ℕ) (_ : i ∈ Finset.range Kn) =>
            mul_nonneg (hnn i) (false_matrix_nonneg i k2))
          (Finset.mem_range.mpr hk)
        exact h

/-- In every successful base-generator run the ground false is the fixed
cross-suppression image of the ground truth: flatten, multiply with the
suppression matrix, clip. -/
theorem groundFalse_determined (nk hh ww sigma : ℕ) (y gt gf : Tensor4)
    (hrun : PseudoLabelGenerator.forward nk hh ww sigma y = some (gt, gf)) :
    gf = ⟨gt.B, gt.K, gt.H, gt.W, fun b k h w =>
      clip01 (Finset.sum (Finset.range gt.K) fun i =>
        gt.data b i h w * false_matrix i k)⟩ := by
  rw [PseudoLabelGenerator.forward] at hrun
  split at hrun
  · rw [Option.some.injEq, Prod.mk.injEq] at hrun
    obtain ⟨hgt, hgf⟩ := hrun
    rw [← hgf, ← hgt]
  · exact absurd hrun (by simp)

/-- In every successful base-generator run the ground truth is entrywise
non-negative (it gathers bank entries). -/
theorem groundTruth_nonneg (nk hh ww sigma : ℕ) (y gt gf : Tensor4)
    (hrun : PseudoLabelGenerator.forward nk hh ww sigma y = some (gt, gf)) :
    ∀ b k h w : ℕ, 0 ≤ gt.data b k h w := by
  rw [PseudoLabelGenerator.forward] at hrun
  split at hrun
  · rw [Option.some.injEq, Prod.mk.injEq] at hrun
    obtain ⟨hgt, hgf⟩ := hrun
    rw [← hgt]
    intro b k h w
    exact heatmapEntry_nonneg _ _ _ _ _ _ _ _
  · exact absurd hrun (by simp)

/-- C5: in a successful base-generator run, wherever keypoint `k` has ground
truth exactly one, the cross-suppression ground false equals exactly one on
every other keypoint channel at that pixel; and the ground false is a fixed
deterministic map of the ground truth — two runs with equal ground truths have
equal ground falses. -/
theorem claim_C5_cross_suppression
    (nk hh ww sigma : ℕ) (y gt gf : Tensor4)
    (hrun : PseudoLabelGenerator.forward nk hh ww sigma y = some (gt, gf))
    (b k h w : ℕ) (hk : k < gt.K) (hone : gt.data b k h w = 1) :
    (∀ k2 : ℕ, k2 < gt.K → k2 ≠ k → gf.data b k2 h w = 1) ∧
    (∀ y2 gt2 gf2 : Tensor4,
      PseudoLabelGenerator.forward nk hh ww sigma y2 = some (gt2, gf2) →
      gt2 = gt → gf2 = gf) := by
  constructor
  · intro k2 hk2 hne
    rw [groundFalse_determined nk hh ww sigma y gt gf hrun]
    exact crossSuppress_eq_one gt.K (fun i => gt.data b i h w) k k2 hk
      (fun hd => hne hd.symm) hone
      (fun i => groundTruth_nonneg nk hh ww sigma y gt gf hrun b i h w)
  · intro y2 gt2 gf2 hrun2 hgteq
    rw [groundFalse_determined nk hh ww sigma y2 gt2 gf2 hrun2, hgteq]
    exact (groundFalse_determined nk hh ww sigma y gt gf hrun).symm

/-- All-zero `(1, 2, 1, 1)` batch for the C5 witness (two keypoints on a one
pixel grid, `sigma = 1`, bank `1 x 1`). -/
def yC5 : Tensor4 := ⟨1, 2, 1, 1, fun _ _ _ _ => 0⟩

/-- Ground truth of the C5 witness run. -/
def gtC5 : Tensor4 :=
  ⟨yC5.B, yC5.K, yC5.H, yC5.W, fun b k h w =>
    heatmapEntry 1 (1 * 3) 1 1
      (getMaxPred yC5.H yC5.W (yC5.data b k)).1
      (getMaxPred yC5.H yC5.W (yC5.data b k)).2
      ((h * yC5.W + w) / 1) ((h * yC5.W + w) % 1)⟩

/-- Ground false of the C5 witness run. -/
def gfC5 : Tensor4 :=
  ⟨yC5.B, yC5.K, yC5.H, yC5.W, fun b k h w =>
    clip01 (Finset.sum (Finset.range yC5.K) fun i =>
      gtC5.data b i h w * false_matrix i k)⟩

/-- The C5 witness run is accepted. -/
theorem yC5_run : PseudoLabelGenerator.forward 2 1 1 1 yC5 = some (gtC5, gfC5) := by
  rw [PseudoLabelGenerator.forward, if_pos]
  · rfl
  · refine ⟨?_, rfl, rfl⟩
    intro b hb k hk
    have h : getMaxPred yC5.H yC5.W (yC5.data b k) = (0, 0) := getMaxPred_const 1 1 0
    rw [h]
    exact ⟨by norm_num, by norm_num⟩

/-- The decoded peak of the all-zero map is `(0, 0)`, whose `1 x 1` template
has value one at its single pixel. -/
theorem gtC5_peak : gtC5.data 0 0 0 0 = 1 := by
  show heatmapEntry 1 (1 * 3) 1 1
      (getMaxPred yC5.H yC5.W (yC5.data 0 0)).1
      (getMaxPred yC5.H yC5.W (yC5.data 0 0)).2
      ((0 * yC5.W + 0) / 1) ((0 * yC5.W + 0) % 1) = 1
  rw [show getMaxPred yC5.H yC5.W (yC5.data 0 0) = (0, 0) from getMaxPred_const 1 1 0]
  exact heatmapEntry_center 1 (1 * 3) 1 1 0 0 (by norm_num) (by norm_num)

/-- Witness for C5: on the concrete two-keypoint run, channel 1 of the ground
false is one at the pixel where channel 0 of the ground truth is one. -/
theorem claim_C5_witness : gfC5.data 0 1 0 0 = 1 := by
  obtain ⟨h1, h2⟩ := claim_C5_cross_suppression 2 1 1 1 yC5 gtC5 gfC5 yC5_run
    0 0 0 0 (by show (0 : ℕ) < 2; norm_num) gtC5_peak
  exact h1 1 (by show (1 : ℕ) < 2; norm_num) (by norm_num)

/-- C6: for every ground-truth tensor with entries in `[0, 1]` the complement
ground false is `clip(1 - gt * 10, 0, 1)` elementwise; wherever the ground
truth is at least `0.1` the complement is exactly zero, so ground truth at
least `0.1` and a positive complement never hold at the same pixel-channel. -/
theorem claim_C6_complement (gt : Tensor4)
    (hbound : ∀ b k h w : ℕ, 0 ≤ gt.data b k h w ∧ gt.data b k h w ≤ 1) :
    (∀ b k h w : ℕ,
      (complementGroundFalse gt).data b k h w = clip01 (1 - gt.data b k h w * 10)) ∧
    (∀ b k h w : ℕ, 1 / 10 ≤ gt.data b k h w →
      (complementGroundFalse gt).data b k h w = 0) ∧
    (∀ b k h w : ℕ, ¬(1 / 10 ≤ gt.data b k h w ∧
      0 < (complementGroundFalse gt).data b k h w)) := by
  refine ⟨fun b k h w => rfl, ?_, ?_⟩
  · intro b k h w hge
    show clip01 (1 - gt.data b k h w * 10) = 0
    apply clip01_of_nonpos
    linarith
  · intro b k h w hc
    obtain ⟨hge, hpos⟩ := hc
    have h0 : (complementGroundFalse gt).data b k h w = 0 := by
      show clip01 (1 - gt.data b k h w * 10) = 0
      apply clip01_of_nonpos
      linarith
    rw [h0] at hpos
    exact lt_irrefl 0 hpos

/-- Constant ground truth `0.2` used for the C6 witness. -/
def gtC6 : Tensor4 := ⟨1, 1, 1, 1, fun _ _ _ _ => 1 / 5⟩

/-- Witness for C6: at confidence `0.2 ≥ 0.1` the complement is exactly zero. -/
theorem claim_C6_witness : (complementGroundFalse gtC6).data 0 0 0 0 = 0 := by
  obtain ⟨h1, h2, h3⟩ := claim_C6_complement gtC6
    (fun b k h w => ⟨by norm_num [gtC6], by norm_num [gtC6]⟩)
  exact h2 0 0 0 0 (by norm_num [gtC6])

/-- C9: the loss selector fails fast on every mode outside `min` / `max`, and
otherwise hands the adversarial prediction, the selected target and the
untouched weight to the external criterion — ground truth for `min`, ground
false for `max`. -/
theorem claim_C9_mode_contract (nk hh ww sigma : ℕ)
    (criterion : Tensor4 → Tensor4 → Option (ℕ → ℕ → ℝ) → ℝ)
    (y y_adv : Tensor4) (weight : Option (ℕ → ℕ → ℝ)) :
    (∀ mode : String, mode ≠ "min" → mode ≠ "max" →
      RegressionDisparity.forward nk hh ww sigma criterion y y_adv weight mode = none) ∧
    RegressionDisparity.forward nk hh ww sigma criterion y y_adv weight "min" =
      (PseudoLabelGenerator.forward nk hh ww sigma y).map
        (fun p => criterion y_adv p.1 weight) ∧
    RegressionDisparity.forward nk hh ww sigma criterion y y_adv weight "max" =
      (PseudoLabelGenerator.forward nk hh ww sigma y).map
        (fun p => criterion y_adv p.2 weight) := by
  refine ⟨?_, ?_, ?_⟩
  · intro mode h1 h2
    rw [RegressionDisparity.forward, if_neg]
    intro hc
    rcases hc with hc | hc
    · exact h1 hc
    · exact h2 hc
  · rw [RegressionDisparity.forward, if_pos (Or.inl rfl)]
    simp
  · rw [RegressionDisparity.forward, if_pos (Or.inr rfl)]
    simp

/-- All-zero batch for the C9 witness. -/
def yC9 : Tensor4 := ⟨1, 1, 1, 1, fun _ _ _ _ => 0⟩

/-- Witness for C9: the invalid mode string `avg` makes the selector fail. -/
theorem claim_C9_witness :
    RegressionDisparity.forward 1 1 1 1 (fun _ _ _ => (0 : ℝ)) yC9 yC9 none "avg" = none :=
  (claim_C9_mode_contract 1 1 1 1 (fun _ _ _ => 0) yC9 yC9 none).1 "avg"
    (by decide) (by decide)

/-- torch broadcast rule for one dimension pair: equal sizes broadcast to the
common size, a size of one stretches, anything else raises. -/
def bcastDim (m n : ℕ) : Option ℕ :=
  if m = n then some m else if m = 1 then some n else if n = 1 then some m else none

/-- Index adjustment of a broadcast operand: a stretched (size one) dimension
always reads index zero. -/
def bcastIdx (m i : ℕ) : ℕ := if m = 1 then 0 else i

/-- A dimension equals its broadcast with itself. -/
theorem bcastDim_self (m : ℕ) : bcastDim m m = some m := by
  unfold bcastDim
  rw [if_pos rfl]

/-- Broadcasting against the literal 21 succeeds exactly for sizes 21 and 1. -/
theorem bcastDim_21_isSome (n : ℕ) :
    (bcastDim 21 n).isSome = true ↔ (n = 21 ∨ n = 1) := by
  unfold bcastDim
  constructor
  · intro h
    by_cases h1 : 21 = n
    · exact Or.inl h1.symm
    · rw [if_neg h1] at h
      rw [if_neg (by omega : ¬ (21 = 1))] at h
      by_cases h2 : n = 1
      · exact Or.inr h2
      · rw [if_neg h2] at h
        simp at h
  · intro h
    rcases h with h | h
    · subst h
      simp
    · subst h
      simp
/-- In-range indices are unchanged by broadcast index adjustment. -/
theorem bcastIdx_lt (m i : ℕ) (h : i < m) : bcastIdx m i = i := by
  unfold bcastIdx
  split
  · omega
  · rfl

/-- torch elementwise binary operation with broadcasting on rank-4 tensors
(`none` is the shape-mismatch raise). -/
def Tensor4.binop (op : ℝ → ℝ → ℝ) (x y : Tensor4) : Option Tensor4 :=
  match bcastDim x.B y.B, bcastDim x.K y.K, bcastDim x.H y.H, bcastDim x.W y.W with
  | some b, some k, some h, some w =>
    some ⟨b, k, h, w, fun i j p q =>
      op (x.data (bcastIdx x.B i) (bcastIdx x.K j) (bcastIdx x.H p) (bcastIdx x.W q))
        (y.data (bcastIdx y.B i) (bcastIdx y.K j) (bcastIdx y.H p) (bcastIdx y.W q))⟩
  | _, _, _, _ => none

/-- torch elementwise binary operation with broadcasting on rank-3 tensors. -/
def Tensor3.binop (op : ℝ → ℝ → ℝ) (x y : Tensor3) : Option Tensor3 :=
  match bcastDim x.B y.B, bcastDim x.H y.H, bcastDim x.W y.W with
  | some b, some h, some w =>
    some ⟨b, h, w, fun i p q =>
      op (x.data (bcastIdx x.B i) (bcastIdx x.H p) (bcastIdx x.W q))
        (y.data (bcastIdx y.B i) (bcastIdx y.H p) (bcastIdx y.W q))⟩
  | _, _, _ => none

/-- `torch.sum(x, dim=1)`: collapse the keypoint channels of a prediction-shaped
tensor into one presence map per sample. -/
def Tensor4.sumdim1 (x : Tensor4) : Tensor3 :=
  ⟨x.B, x.H, x.W, fun b h w => Finset.sum (Finset.range x.K) fun k => x.data b k h w⟩

/-- `.clip(max=1., min=0.)` on a rank-3 tensor. -/
def Tensor3.clip01t (x : Tensor3) : Tensor3 :=
  ⟨x.B, x.H, x.W, fun b h w => clip01 (x.data b h w)⟩

/-- `.clip(max=1., min=0.)` on a rank-4 tensor. -/
def Tensor4.clip01t (x : Tensor4) : Tensor4 :=
  ⟨x.B, x.K, x.H, x.W, fun b k h w => clip01 (x.data b k h w)⟩

/-- `x * 10` and the like: scalar multiplication on the right. -/
def Tensor4.mulScalar (x : Tensor4) (c : ℝ) : Tensor4 :=
  ⟨x.B, x.K, x.H, x.W, fun b k h w => x.data b k h w * c⟩

/-- `label_p.unsqueeze(1).repeat(1, r, 1, 1)`: broadcast one presence map over
`r` keypoint channels. -/
def Tensor3.unsqueezeRepeat (x : Tensor3) (r : ℕ) : Tensor4 :=
  ⟨x.B, r, x.H, x.W, fun b _ h w => x.data b h w⟩

/-- `torch.max` of one `(H, W)` slice: fold of `max` over all pixels in
row-major order (torch raises on an empty tensor; the fold seeds with pixel
`(0, 0)`, which exists in every use below). -/
def channelMax (H W : ℕ) (f : ℕ → ℕ → ℝ) : ℝ :=
  (List.range (H * W)).foldl (fun a l => max a (f (l / W) (l % W))) (f 0 0)

/-- The per-sample normalization `[label_p[k] / torch.max(label_p[k]) for k in
range(b)]` of `RegressionDisparity2.forward` line 202 (and line 279 of
`RegressionDisparity3.forward`), with real division. -/
def Tensor3.divByMax (x : Tensor3) : Tensor3 :=
  ⟨x.B, x.H, x.W, fun b h w => x.data b h w / channelMax x.H x.W (x.data b)⟩

/-- Ground-false construction of `RegressionDisparity4.forward` (lines
342-344): sum the ground truth over the keypoint dimension, clip to `[0, 1]`,
broadcast over the hardcoded 21 channels, subtract `ground_truth * 10`, clip. -/
def RegressionDisparity4.groundFalse (ground_truth : Tensor4) : Option Tensor4 :=
  ((ground_truth.sumdim1.clip01t.unsqueezeRepeat 21).binop (fun a b => a - b)
    (ground_truth.mulScalar 10)).map Tensor4.clip01t

/-- Ground-false construction of `RegressionDisparity2.forward` (lines
197-206): add the three un-clipped presence sums (`label_p2 + label_p1 +
label_p3`), divide each sample by its own spatial maximum, broadcast over the
hardcoded 21 channels, subtract `ground_truth * 10`, clip. -/
def RegressionDisparity2.groundFalse
    (ground_truth ground_truth1 ground_truth2 : Tensor4) : Option Tensor4 :=
  (ground_truth1.sumdim1.binop (fun a b => a + b) ground_truth.sumdim1).bind fun s1 =>
    (s1.binop (fun a b => a + b) ground_truth2.sumdim1).bind fun s =>
      ((s.divByMax.unsqueezeRepeat 21).binop (fun a b => a - b)
        (ground_truth.mulScalar 10)).map Tensor4.clip01t

/-- Ground-false construction of `RegressionDisparity3.forward` (lines
274-284): as `RegressionDisparity2` but each of the three presence sums is
clipped to `[0, 1]` before the addition (`label_p1 + label_p2 + label_p3`). -/
def RegressionDisparity3.groundFalse
    (ground_truth ground_truth1 ground_truth2 : Tensor4) : Option Tensor4 :=
  (ground_truth.sumdim1.clip01t.binop (fun a b => a + b)
      ground_truth1.sumdim1.clip01t).bind fun s1 =>
    (s1.binop (fun a b => a + b) ground_truth2.sumdim1.clip01t).bind fun s =>
      ((s.divByMax.unsqueezeRepeat 21).binop (fun a b => a - b)
        (ground_truth.mulScalar 10)).map Tensor4.clip01t

/-- A rank-4 broadcast operation succeeds exactly when all four dimension
pairs broadcast. -/
theorem Tensor4.binop_isSome (op : ℝ → ℝ → ℝ) (x y : Tensor4) :
    (Tensor4.binop op x y).isSome = true ↔
      (bcastDim x.B y.B).isSome = true ∧ (bcastDim x.K y.K).isSome = true ∧
      (bcastDim x.H y.H).isSome = true ∧ (bcastDim x.W y.W).isSome = true := by
  unfold Tensor4.binop
  rcases h1 : bcastDim x.B y.B with _ | b <;>
    rcases h2 : bcastDim x.K y.K with _ | k <;>
      rcases h3 : bcastDim x.H y.H with _ | h <;>
        rcases h4 : bcastDim x.W y.W with _ | w <;>
          simp

/-- A rank-3 broadcast operation on equal shapes always succeeds, producing
the pointwise image. -/
theorem binop3_eq_shapes (op : ℝ → ℝ → ℝ) (x y : Tensor3)
    (hB : x.B = y.B) (hH : x.H = y.H) (hW : x.W = y.W) :
    Tensor3.binop op x y = some ⟨x.B, x.H, x.W, fun i p q =>
      op (x.data (bcastIdx x.B i) (bcastIdx x.H p) (bcastIdx x.W q))
        (y.data (bcastIdx y.B i) (bcastIdx y.H p) (bcastIdx y.W q))⟩ := by
  unfold Tensor3.binop
  rw [← hB, ← hH, ← hW, bcastDim_self, bcastDim_self, bcastDim_self]

/-- Mapping a tensor function over an optional tensor preserves definedness. -/
theorem isSome_map_t4 (f : Tensor4 → Tensor4) (o : Option Tensor4) :
    (Option.map f o).isSome = o.isSome := by
  cases o <;> rfl

/-- A rank-3 broadcast on equal shapes succeeds with the left operand's shape. -/
theorem Tensor3.binop_shape_exists (op : ℝ → ℝ → ℝ) (x y : Tensor3)
    (hB : x.B = y.B) (hH : x.H = y.H) (hW : x.W = y.W) :
    ∃ z : Tensor3, Tensor3.binop op x y = some z ∧
      z.B = x.B ∧ z.H = x.H ∧ z.W = x.W :=
  ⟨_, binop3_eq_shapes op x y hB hH hW, rfl, rfl, rfl⟩

/-- All-zero single-keypoint batch used to refute C10. -/
def gtK1C10 : Tensor4 := ⟨1, 1, 1, 1, fun _ _ _ _ => 0⟩

/-- C10 counterexample: with `K = 1` the subtraction
`(label_p - ground_truth * 10)` broadcasts the size-one keypoint dimension
against the hardcoded 21 channels, so the ground-false construction succeeds
even though `K ≠ 21`. -/
theorem claim_C10_counterexample :
    (RegressionDisparity4.groundFalse gtK1C10).isSome = true ∧ gtK1C10.K ≠ 21 := by
  constructor
  · unfold RegressionDisparity4.groundFalse
    simp [Tensor4.binop, Tensor4.sumdim1, Tensor3.clip01t, Tensor3.unsqueezeRepeat,
      Tensor4.mulScalar, bcastDim, gtK1C10]
  · show (1 : ℕ) ≠ 21
    decide

/-- C10 (amended): the broadcast-repeat ground-false constructions of
`RegressionDisparity4` and `RegressionDisparity2` are well formed exactly when
the keypoint dimension is 21 (matching the hardcoded repeat) or 1 (stretched
by torch broadcasting); every other `K` raises a shape mismatch. -/
theorem claim_C10_amended_broadcast (gt : Tensor4) :
    ((RegressionDisparity4.groundFalse gt).isSome = true ↔ (gt.K = 21 ∨ gt.K = 1)) ∧
    ((RegressionDisparity2.groundFalse gt gt gt).isSome = true ↔
      (gt.K = 21 ∨ gt.K = 1)) := by
  constructor
  · unfold RegressionDisparity4.groundFalse
    rw [isSome_map_t4]
    rw [Tensor4.binop_isSome]
    simp only [Tensor4.sumdim1, Tensor3.clip01t, Tensor3.unsqueezeRepeat,
      Tensor4.mulScalar, bcastDim_self, bcastDim_21_isSome]
    simp
  · unfold RegressionDisparity2.groundFalse
    obtain ⟨s1, hs1, hB1, hH1, hW1⟩ :=
      Tensor3.binop_shape_exists (fun a b => a + b) gt.sumdim1 gt.sumdim1 rfl rfl rfl
    rw [hs1, Option.some_bind]
    obtain ⟨s, hs, hBs, hHs, hWs⟩ :=
      Tensor3.binop_shape_exists (fun a b => a + b) s1 gt.sumdim1
        (by rw [hB1]) (by rw [hH1]) (by rw [hW1])
    rw [hs, Option.some_bind]
    rw [isSome_map_t4]
    rw [Tensor4.binop_isSome]
    have hB2 : s.B = gt.B := by
      rw [hBs, hB1]
      rfl
    have hH2 : s.H = gt.H := by
      rw [hHs, hH1]
      rfl
    have hW2 : s.W = gt.W := by
      rw [hWs, hW1]
      rfl
    simp only [Tensor3.divByMax, Tensor3.unsqueezeRepeat, Tensor4.mulScalar,
      hB2, hH2, hW2, bcastDim_self, bcastDim_21_isSome]
    simp

/-- Minimal IEEE float value for the zero-denominator claims: a finite real,
NaN, or an infinity (the sign of the infinity is never needed below). -/
inductive FloatVal where
  | fin : ℝ → FloatVal
  | nan : FloatVal
  | inf : FloatVal

/-- IEEE float division, refined at a zero denominator: `0 / 0` is NaN,
`x / 0` with `x ≠ 0` an infinity, otherwise the real quotient. -/
def ieeeDiv (x y : ℝ) : FloatVal :=
  if y = 0 then (if x = 0 then FloatVal.nan else FloatVal.inf)
  else FloatVal.fin (x / y)

/-- Folding `max` with a constant over any index list keeps the constant. -/
theorem foldl_max_const (c : ℝ) (L : List ℕ) :
    L.foldl (fun a _ => max a c) c = c := by
  induction L with
  | nil => rfl
  | cons x xs ih =>
    rw [List.foldl_cons, max_self]
    exact ih

/-- `torch.max` of a constant slice is that constant. -/
theorem channelMax_const (H W : ℕ) (c : ℝ) :
    channelMax H W (fun _ _ => c) = c :=
  foldl_max_const c (List.range (H * W))

/-- The per-channel max-normalization
`ground_false[k][j] / torch.max(ground_false[k][j])` of
`RegressionDisparityx4.forward` (lines 3466-3468, likewise x5 and x6), with
the division modelled at IEEE precision (`FloatVal`). -/
def RegressionDisparityx4.normalizeFalse (gf : Tensor4) (b k h w : ℕ) : FloatVal :=
  ieeeDiv (gf.data b k h w) (channelMax gf.H gf.W (gf.data b k))

/-- An all-zero `(1, 1, 2, 2)` ground-false tensor: exactly what
`RegressionDisparity4` / `RegressionDisparityx6` produce for `K = 1`, since
then `ground_false = clip(ground_truth - ground_truth * 10, 0, 1) = 0`
everywhere. -/
def gfZeroC8 : Tensor4 := ⟨1, 1, 2, 2, fun _ _ _ _ => 0⟩

/-- C8: normalizing an identically-zero `(H, W)` slice by its own maximum
divides `0` by `0`, which is NaN at IEEE precision — the slice does not stay
an all-zero map, contradicting the claim. -/
theorem claim_C8_zero_max_normalization_nan :
    RegressionDisparityx4.normalizeFalse gfZeroC8 0 0 0 0 = FloatVal.nan ∧
    RegressionDisparityx4.normalizeFalse gfZeroC8 0 0 0 0 ≠ FloatVal.fin 0 := by
  have h : RegressionDisparityx4.normalizeFalse gfZeroC8 0 0 0 0 = FloatVal.nan := by
    unfold RegressionDisparityx4.normalizeFalse
    rw [show channelMax gfZeroC8.H gfZeroC8.W (gfZeroC8.data 0 0) = 0 from
      channelMax_const 2 2 0]
    unfold ieeeDiv
    rw [if_pos rfl, if_pos (show gfZeroC8.data 0 0 0 0 = (0 : ℝ) from rfl)]
  refine ⟨h, ?_⟩
  rw [h]
  intro hc
  exact FloatVal.noConfusion hc

/-- Clip is the identity on `[0, 1]`. -/
theorem clip01_of_mem (x : ℝ) (h0 : 0 ≤ x) (h1 : x ≤ 1) : clip01 x = x := by
  unfold clip01
  rw [max_eq_left h0, min_eq_left h1]

/-- A rank-4 broadcast on equal shapes succeeds, producing the pointwise image. -/
theorem binop4_eq_shapes (op : ℝ → ℝ → ℝ) (x y : Tensor4)
    (hB : x.B = y.B) (hK : x.K = y.K) (hH : x.H = y.H) (hW : x.W = y.W) :
    Tensor4.binop op x y = some ⟨x.B, x.K, x.H, x.W, fun i j p q =>
      op (x.data (bcastIdx x.B i) (bcastIdx x.K j) (bcastIdx x.H p) (bcastIdx x.W q))
        (y.data (bcastIdx y.B i) (bcastIdx y.K j) (bcastIdx y.H p) (bcastIdx y.W q))⟩ := by
  unfold Tensor4.binop
  rw [← hB, ← hK, ← hH, ← hW, bcastDim_self, bcastDim_self, bcastDim_self, bcastDim_self]

/-- Elimination form of a rank-3 equal-shape broadcast: the result exists,
keeps the shape, and agrees pointwise at in-range indices. -/
theorem binop3_elim (op : ℝ → ℝ → ℝ) (x y : Tensor3)
    (hB : x.B = y.B) (hH : x.H = y.H) (hW : x.W = y.W) :
    ∃ z : Tensor3, Tensor3.binop op x y = some z ∧
      z.B = x.B ∧ z.H = x.H ∧ z.W = x.W ∧
      ∀ i p q : ℕ, i < x.B → p < x.H → q < x.W →
        z.data i p q = op (x.data i p q) (y.data i p q) := by
  refine ⟨_, binop3_eq_shapes op x y hB hH hW, rfl, rfl, rfl, ?_⟩
  intro i p q hi hp hq
  show op (x.data (bcastIdx x.B i) (bcastIdx x.H p) (bcastIdx x.W q))
      (y.data (bcastIdx y.B i) (bcastIdx y.H p) (bcastIdx y.W q)) = _
  rw [bcastIdx_lt x.B i hi, bcastIdx_lt x.H p hp, bcastIdx_lt x.W q hq,
    bcastIdx_lt y.B i (hB ▸ hi), bcastIdx_lt y.H p (hH ▸ hp), bcastIdx_lt y.W q (hW ▸ hq)]

/-- Elimination form of a rank-4 equal-shape broadcast. -/
theorem binop4_elim (op : ℝ → ℝ → ℝ) (x y : Tensor4)
    (hB : x.B = y.B) (hK : x.K = y.K) (hH : x.H = y.H) (hW : x.W = y.W) :
    ∃ z : Tensor4, Tensor4.binop op x y = some z ∧
      z.B = x.B ∧ z.K = x.K ∧ z.H = x.H ∧ z.W = x.W ∧
      ∀ i j p q : ℕ, i < x.B → j < x.K → p < x.H → q < x.W →
        z.data i j p q = op (x.data i j p q) (y.data i j p q) := by
  refine ⟨_, binop4_eq_shapes op x y hB hK hH hW, rfl, rfl, rfl, rfl, ?_⟩
  intro i j p q hi hj hp hq
  show op (x.data (bcastIdx x.B i) (bcastIdx x.K j) (bcastIdx x.H p) (bcastIdx x.W q))
      (y.data (bcastIdx y.B i) (bcastIdx y.K j) (bcastIdx y.H p) (bcastIdx y.W q)) = _
  rw [bcastIdx_lt x.B i hi, bcastIdx_lt x.K j hj, bcastIdx_lt x.H p hp,
    bcastIdx_lt x.W q hq, bcastIdx_lt y.B i (hB ▸ hi), bcastIdx_lt y.K j (hK ▸ hj),
    bcastIdx_lt y.H p (hH ▸ hp), bcastIdx_lt y.W q (hW ▸ hq)]

/-- `torch.max` only reads in-range pixels, so it respects in-range agreement. -/
theorem channelMax_congr (H W : ℕ) (f g : ℕ → ℕ → ℝ) (hH : 0 < H) (hW : 0 < W)
    (h : ∀ p q : ℕ, p < H → q < W → f p q = g p q) :
    channelMax H W f = channelMax H W g := by
  unfold channelMax
  rw [h 0 0 hH hW]
  apply List.foldl_ext
  intro a l hl
  have hlHW : l < H * W := List.mem_range.mp hl
  rw [h (l / W) (l % W) ((Nat.div_lt_iff_lt_mul hW).mpr hlHW) (Nat.mod_lt _ hW)]

/-- Modelled from the spec: the un-normalized part of the combination sequence
the spec asserts for the higher-order ground-false variants — "sum ground_truth
maps across the keypoint channel dimension, clip to [0,1], broadcast-repeat
across K, subtract ground_truth times 10, clip to [0,1]". -/
def specSequenceBase (gt : Tensor4) : Tensor4 :=
  ⟨gt.B, gt.K, gt.H, gt.W, fun b k h w =>
    clip01 (gt.sumdim1.clip01t.data b h w - gt.data b k h w * 10)⟩

/-- Modelled from the spec: the full claimed sequence with the optional
per-channel renormalization by the channel's own maximum, guarded as the spec
requires ("treat as no-op" when the maximum is zero). -/
def specSequenceGroundFalse (normalize : Bool) (gt : Tensor4) : Tensor4 :=
  if normalize then
    ⟨gt.B, gt.K, gt.H, gt.W, fun b k h w =>
      if channelMax gt.H gt.W ((specSequenceBase gt).data b k) = 0 then
        (specSequenceBase gt).data b k h w
      else
        (specSequenceBase gt).data b k h w /
          channelMax gt.H gt.W ((specSequenceBase gt).data b k)⟩
  else specSequenceBase gt

/-- The three-way presence map actually built by `RegressionDisparity2.forward`
(lines 197-201): `label_p2 + label_p1 + label_p3`, no clipping. -/
def rd2Presence (g g1 g2 : Tensor4) (b p q : ℕ) : ℝ :=
  (Finset.sum (Finset.range g1.K) fun i => g1.data b i p q) +
      (Finset.sum (Finset.range g.K) fun i => g.data b i p q) +
    Finset.sum (Finset.range g2.K) fun i => g2.data b i p q

/-- The three-way presence map actually built by `RegressionDisparity3.forward`
(lines 274-278): each summed map is clipped before the addition. -/
def rd3Presence (g g1 g2 : Tensor4) (b p q : ℕ) : ℝ :=
  (clip01 (Finset.sum (Finset.range g.K) fun i => g.data b i p q) +
      clip01 (Finset.sum (Finset.range g1.K) fun i => g1.data b i p q)) +
    clip01 (Finset.sum (Finset.range g2.K) fun i => g2.data b i p q)

/-- Pointwise value of the `RegressionDisparity4` ground false: it follows the
spec's sequence with no renormalization. -/
theorem rd4_groundFalse_value (gt : Tensor4) (hK21 : gt.K = 21)
    (b k h w : ℕ) (hb : b < gt.B) (hk : k < 21) (hh : h < gt.H) (hw : w < gt.W) :
    (RegressionDisparity4.groundFalse gt).map (fun t => t.data b k h w) =
      some ((specSequenceGroundFalse false gt).data b k h w) := by
  unfold RegressionDisparity4.groundFalse
  obtain ⟨z, hz, hzB, hzK, hzH, hzW, hzdata⟩ :=
    binop4_elim (fun a b => a - b)
      (gt.sumdim1.clip01t.unsqueezeRepeat 21) (gt.mulScalar 10)
      rfl hK21.symm rfl rfl
  rw [hz]
  show some (clip01 (z.data b k h w)) = _
  rw [hzdata b k h w hb hk hh hw]
  rfl

/-- Pointwise value of the `RegressionDisparity2` ground false: the three
un-clipped presence sums are added, divided by the per-sample spatial maximum,
broadcast, reduced by `ground_truth * 10`, and clipped. -/
theorem rd2_groundFalse_value (gt gt1 gt2 : Tensor4) (hK21 : gt.K = 21)
    (h1B : gt1.B = gt.B) (h1H : gt1.H = gt.H) (h1W : gt1.W = gt.W)
    (h2B : gt2.B = gt.B) (h2H : gt2.H = gt.H) (h2W : gt2.W = gt.W)
    (b k h w : ℕ) (hb : b < gt.B) (hk : k < 21) (hh : h < gt.H) (hw : w < gt.W) :
    (RegressionDisparity2.groundFalse gt gt1 gt2).map (fun t => t.data b k h w) =
      some (clip01 (rd2Presence gt gt1 gt2 b h w /
        channelMax gt.H gt.W (rd2Presence gt gt1 gt2 b) - gt.data b k h w * 10)) := by
  unfold RegressionDisparity2.groundFalse
  obtain ⟨s1, hs1, hs1B, hs1H, hs1W, hs1data⟩ :=
    binop3_elim (fun a b => a + b) gt1.sumdim1 gt.sumdim1 h1B h1H h1W
  have hs1B2 : s1.B = gt.B := by
    rw [hs1B]
    exact h1B
  have hs1H2 : s1.H = gt.H := by
    rw [hs1H]
    exact h1H
  have hs1W2 : s1.W = gt.W := by
    rw [hs1W]
    exact h1W
  rw [hs1, Option.some_bind]
  obtain ⟨s, hs, hsB, hsH, hsW, hsdata⟩ :=
    binop3_elim (fun a b => a + b) s1 gt2.sumdim1
      (by rw [hs1B2]; exact h2B.symm) (by rw [hs1H2]; exact h2H.symm)
      (by rw [hs1W2]; exact h2W.symm)
  have hsB2 : s.B = gt.B := by
    rw [hsB, hs1B2]
  have hsH2 : s.H = gt.H := by
    rw [hsH, hs1H2]
  have hsW2 : s.W = gt.W := by
    rw [hsW, hs1W2]
  rw [hs, Option.some_bind]
  obtain ⟨z, hz, hzB, hzK, hzH, hzW, hzdata⟩ :=
    binop4_elim (fun a b => a - b)
      (s.divByMax.unsqueezeRepeat 21) (gt.mulScalar 10)
      hsB2 hK21.symm hsH2 hsW2
  rw [hz]
  show some (clip01 (z.data b k h w)) = _
  rw [hzdata b k h w (by show b < s.B; omega) hk (by show h < s.H; omega)
    (by show w < s.W; omega)]
  have hpres : ∀ p q : ℕ, p < gt.H → q < gt.W →
      s.data b p q = rd2Presence gt gt1 gt2 b p q := by
    intro p q hp hq
    rw [hsdata b p q (by omega) (by omega) (by omega)]
    rw [hs1data b p q (by show b < gt1.B; omega) (by show p < gt1.H; omega)
      (by show q < gt1.W; omega)]
    rfl
  show some (clip01 (s.data b h w / channelMax s.H s.W (s.data b) -
      gt.data b k h w * 10)) = _
  rw [hpres h w hh hw]
  rw [hsH2, hsW2]
  rw [channelMax_congr gt.H gt.W (s.data b) (rd2Presence gt gt1 gt2 b)
    (by omega) (by omega) hpres]

/-- Pointwise value of the `RegressionDisparity3` ground false: as
`RegressionDisparity2` but with each presence sum clipped before addition. -/
theorem rd3_groundFalse_value (gt gt1 gt2 : Tensor4) (hK21 : gt.K = 21)
    (h1B : gt1.B = gt.B) (h1H : gt1.H = gt.H) (h1W : gt1.W = gt.W)
    (h2B : gt2.B = gt.B) (h2H : gt2.H = gt.H) (h2W : gt2.W = gt.W)
    (b k h w : ℕ) (hb : b < gt.B) (hk : k < 21) (hh : h < gt.H) (hw : w < gt.W) :
    (RegressionDisparity3.groundFalse gt gt1 gt2).map (fun t => t.data b k h w) =
      some (clip01 (rd3Presence gt gt1 gt2 b h w /
        channelMax gt.H gt.W (rd3Presence gt gt1 gt2 b) - gt.data b k h w * 10)) := by
  unfold RegressionDisparity3.groundFalse
  obtain ⟨s1, hs1, hs1B, hs1H, hs1W, hs1data⟩ :=
    binop3_elim (fun a b => a + b) gt.sumdim1.clip01t gt1.sumdim1.clip01t
      h1B.symm h1H.symm h1W.symm
  have hs1B2 : s1.B = gt.B := by
    rw [hs1B]
    rfl
  have hs1H2 : s1.H = gt.H := by
    rw [hs1H]
    rfl
  have hs1W2 : s1.W = gt.W := by
    rw [hs1W]
    rfl
  rw [hs1, Option.some_bind]
  obtain ⟨s, hs, hsB, hsH, hsW, hsdata⟩ :=
    binop3_elim (fun a b => a + b) s1 gt2.sumdim1.clip01t
      (by rw [hs1B2]; exact h2B.symm) (by rw [hs1H2]; exact h2H.symm)
      (by rw [hs1W2]; exact h2W.symm)
  have hsB2 : s.B = gt.B := by
    rw [hsB, hs1B2]
  have hsH2 : s.H = gt.H := by
    rw [hsH, hs1H2]
  have hsW2 : s.W = gt.W := by
    rw [hsW, hs1W2]
  rw [hs, Option.some_bind]
  obtain ⟨z, hz, hzB, hzK, hzH, hzW, hzdata⟩ :=
    binop4_elim (fun a b => a - b)
      (s.divByMax.unsqueezeRepeat 21) (gt.mulScalar 10)
      hsB2 hK21.symm hsH2 hsW2
  rw [hz]
  show some (clip01 (z.data b k h w)) = _
  rw [hzdata b k h w (by show b < s.B; omega) hk (by show h < s.H; omega)
    (by show w < s.W; omega)]
  have hpres : ∀ p q : ℕ, p < gt.H → q < gt.W →
      s.data b p q = rd3Presence gt gt1 gt2 b p q := by
    intro p q hp hq
    rw [hsdata b p q (by omega) (by omega) (by omega)]
    rw [hs1data b p q (by show b < gt.B; omega) (by show p < gt.H; omega)
      (by show q < gt.W; omega)]
    rfl
  show some (clip01 (s.data b h w / channelMax s.H s.W (s.data b) -
      gt.data b k h w * 10)) = _
  rw [hpres h w hh hw]
  rw [hsH2, hsW2]
  rw [channelMax_congr gt.H gt.W (s.data b) (rd3Presence gt gt1 gt2 b)
    (by omega) (by omega) hpres]

/-- C3 (amended): `RegressionDisparity4` computes its ground false by exactly
the claimed sequence with no renormalization (sum over K, clip, broadcast over
the hardcoded 21, subtract `ground_truth * 10`, clip); `RegressionDisparity2`
and `RegressionDisparity3` instead add the presence sums of three decoded
predictions (RD3 clipping each sum, RD2 not clipping), divide by the
per-sample spatial maximum before broadcasting, then subtract and clip, with
no trailing per-channel renormalization. -/
theorem claim_C3_amended_sequences (gt gt1 gt2 : Tensor4) (hK21 : gt.K = 21)
    (h1B : gt1.B = gt.B) (h1H : gt1.H = gt.H) (h1W : gt1.W = gt.W)
    (h2B : gt2.B = gt.B) (h2H : gt2.H = gt.H) (h2W : gt2.W = gt.W)
    (b k h w : ℕ) (hb : b < gt.B) (hk : k < 21) (hh : h < gt.H) (hw : w < gt.W) :
    (RegressionDisparity4.groundFalse gt).map (fun t => t.data b k h w) =
      some ((specSequenceGroundFalse false gt).data b k h w) ∧
    (RegressionDisparity2.groundFalse gt gt1 gt2).map (fun t => t.data b k h w) =
      some (clip01 (rd2Presence gt gt1 gt2 b h w /
        channelMax gt.H gt.W (rd2Presence gt gt1 gt2 b) - gt.data b k h w * 10)) ∧
    (RegressionDisparity3.groundFalse gt gt1 gt2).map (fun t => t.data b k h w) =
      some (clip01 (rd3Presence gt gt1 gt2 b h w /
        channelMax gt.H gt.W (rd3Presence gt gt1 gt2 b) - gt.data b k h w * 10)) :=
  ⟨rd4_groundFalse_value gt hK21 b k h w hb hk hh hw,
    rd2_groundFalse_value gt gt1 gt2 hK21 h1B h1H h1W h2B h2H h2W b k h w hb hk hh hw,
    rd3_groundFalse_value gt gt1 gt2 hK21 h1B h1H h1W h2B h2H h2W b k h w hb hk hh hw⟩

/-- Unrolled `torch.max` of a `1 x 2` slice. -/
theorem channelMax_one_two (f : ℕ → ℕ → ℝ) :
    channelMax 1 2 f = max (max (f 0 0) (f 0 0)) (f 0 1) := by
  show (List.range (1 * 2)).foldl (fun a l => max a (f (l / 2) (l % 2))) (f 0 0) = _
  rw [show List.range (1 * 2) = [0, 1] from by decide]
  rw [List.foldl_cons, List.foldl_cons, List.foldl_nil]

/-- A 21-channel single-keypoint ground truth on a `1 x 2` grid: value `1/50`
at channel 0, pixel `(0, 0)`; zero elsewhere. -/
def gtC3 : Tensor4 :=
  ⟨1, 21, 1, 2, fun _ k _ w => if k = 0 then (if w = 0 then (1 : ℝ) / 50 else 0) else 0⟩

/-- Presence sum of `gtC3` at pixel `(0, 0)`. -/
theorem gtC3_sum0 :
    (Finset.sum (Finset.range gtC3.K) fun i => gtC3.data 0 i 0 0) = 1 / 50 := by
  show (Finset.sum (Finset.range 21) fun i =>
    if i = 0 then (if (0 : ℕ) = 0 then (1 : ℝ) / 50 else 0) else 0) = 1 / 50
  rw [Finset.sum_ite_eq' (Finset.range 21) 0
    (fun i => if (0 : ℕ) = 0 then (1 : ℝ) / 50 else 0)]
  norm_num

/-- Presence sum of `gtC3` at pixel `(0, 1)`. -/
theorem gtC3_sum1 :
    (Finset.sum (Finset.range gtC3.K) fun i => gtC3.data 0 i 0 1) = 0 := by
  show (Finset.sum (Finset.range 21) fun i =>
    if i = 0 then (if (1 : ℕ) = 0 then (1 : ℝ) / 50 else 0) else 0) = 0
  simp

/-- The `RegressionDisparity2` presence of `gtC3` at pixel `(0, 0)`. -/
theorem gtC3_pres0 : rd2Presence gtC3 gtC3 gtC3 0 0 0 = 3 / 50 := by
  unfold rd2Presence
  rw [gtC3_sum0]
  norm_num

/-- The `RegressionDisparity2` presence of `gtC3` at pixel `(0, 1)`. -/
theorem gtC3_pres1 : rd2Presence gtC3 gtC3 gtC3 0 0 1 = 0 := by
  unfold rd2Presence
  rw [gtC3_sum1]
  norm_num

/-- The per-sample maximum of the `gtC3` presence map. -/
theorem gtC3_presMax :
    channelMax gtC3.H gtC3.W (rd2Presence gtC3 gtC3 gtC3 0) = 3 / 50 := by
  show channelMax 1 2 (rd2Presence gtC3 gtC3 gtC3 0) = 3 / 50
  rw [channelMax_one_two]
  rw [gtC3_pres0, gtC3_pres1]
  rw [max_self]
  rw [max_eq_left (by norm_num : (0 : ℝ) ≤ 3 / 50)]

/-- The spec sequence without renormalization on `gtC3` at channel 0,
pixel `(0, 0)`: the `10 x` subtraction drives it to zero. -/
theorem gtC3_specBase00 : (specSequenceBase gtC3).data 0 0 0 0 = 0 := by
  show clip01 (clip01 (Finset.sum (Finset.range gtC3.K) fun i => gtC3.data 0 i 0 0) -
    gtC3.data 0 0 0 0 * 10) = 0
  rw [gtC3_sum0]
  rw [show gtC3.data 0 0 0 0 = 1 / 50 from rfl]
  rw [clip01_of_mem (1 / 50) (by norm_num) (by norm_num)]
  apply clip01_of_nonpos
  norm_num

/-- The spec sequence without renormalization on `gtC3` at channel 0,
pixel `(0, 1)`: everything is zero there. -/
theorem gtC3_specBase01 : (specSequenceBase gtC3).data 0 0 0 1 = 0 := by
  show clip01 (clip01 (Finset.sum (Finset.range gtC3.K) fun i => gtC3.data 0 i 0 1) -
    gtC3.data 0 0 0 1 * 10) = 0
  rw [gtC3_sum1]
  rw [show gtC3.data 0 0 0 1 = 0 from rfl]
  rw [clip01_of_mem 0 le_rfl zero_le_one]
  apply clip01_of_nonpos
  norm_num

/-- C3 counterexample: on `gtC3` the `RegressionDisparity2` ground false at
channel 0, pixel `(0, 0)` equals `4/5` (the per-sample division rescales the
presence to one before the subtraction), while the spec's claimed sequence
yields `0` there, both without and with the optional renormalization. -/
theorem claim_C3_counterexample :
    (RegressionDisparity2.groundFalse gtC3 gtC3 gtC3).map (fun t => t.data 0 0 0 0) =
      some (4 / 5) ∧
    (specSequenceGroundFalse false gtC3).data 0 0 0 0 = 0 ∧
    (specSequenceGroundFalse true gtC3).data 0 0 0 0 = 0 ∧
    ((4 : ℝ) / 5 ≠ 0) := by
  refine ⟨?_, gtC3_specBase00, ?_, by norm_num⟩
  · rw [rd2_groundFalse_value gtC3 gtC3 gtC3 rfl rfl rfl rfl rfl rfl rfl 0 0 0 0
      (by show (0 : ℕ) < 1; norm_num) (by norm_num)
      (by show (0 : ℕ) < 1; norm_num) (by show (0 : ℕ) < 2; norm_num)]
    rw [gtC3_pres0, gtC3_presMax]
    rw [show gtC3.data 0 0 0 0 = 1 / 50 from rfl]
    have hval : (3 : ℝ) / 50 / (3 / 50) - 1 / 50 * 10 = 4 / 5 := by
      norm_num
    rw [hval]
    rw [clip01_of_mem (4 / 5) (by norm_num) (by norm_num)]
  · have hmaxb : channelMax gtC3.H gtC3.W ((specSequenceBase gtC3).data 0 0) = 0 := by
      show channelMax 1 2 ((specSequenceBase gtC3).data 0 0) = 0
      rw [channelMax_one_two]
      rw [gtC3_specBase00, gtC3_specBase01]
      norm_num
    show (if channelMax gtC3.H gtC3.W ((specSequenceBase gtC3).data 0 0) = 0 then
        (specSequenceBase gtC3).data 0 0 0 0
      else (specSequenceBase gtC3).data 0 0 0 0 /
        channelMax gtC3.H gtC3.W ((specSequenceBase gtC3).data 0 0)) = 0
    rw [if_pos hmaxb]
    exact gtC3_specBase00

/-- Witness for C3 (amended) on the concrete `gtC3` input. -/
theorem claim_C3_witness :
    (RegressionDisparity4.groundFalse gtC3).map (fun t => t.data 0 0 0 0) =
      some ((specSequenceGroundFalse false gtC3).data 0 0 0 0) :=
  (claim_C3_amended_sequences gtC3 gtC3 gtC3 rfl rfl rfl rfl rfl rfl rfl 0 0 0 0
    (by show (0 : ℕ) < 1; norm_num) (by norm_num)
    (by show (0 : ℕ) < 1; norm_num) (by show (0 : ℕ) < 2; norm_num)).1
